import Mathlib

set_option maxRecDepth 8000

deriving instance DecidableEq for Except

/-! Shallow embedding of the music-theory core of the guitar_scale_finder
repository (fretboard_core.py and the scale table in scales.py).
Python strings are modelled as Lean `String` / `List Char`, Python ints as
`Nat`/`Int` with explicit Euclidean `%` (Python's `%` on a positive modulus),
Python exceptions as `Except FbError`. -/

/-! ## Static tables (fretboard_core.py lines 6–17, scales.py) -/

def CHROMATIC_SHARPS : List String :=
  ["C", "C#", "D", "D#", "E", "F"] ++ ["F#", "G", "G#", "A", "A#", "B"]

def CHROMATIC_FLATS : List String :=
  ["C", "Db", "D", "Eb", "E", "F", "Gb", "G", "Ab", "A", "Bb", "B"]

def SHARP_TO_FLAT : List (String × String) :=
  [("C#", "Db"), ("D#", "Eb"), ("F#", "Gb"), ("G#", "Ab"), ("A#", "Bb")]

def FLAT_TO_SHARP : List (String × String) :=
  [("Db", "C#"), ("Eb", "D#"), ("Fb", "E"), ("Gb", "F#"), ("Ab", "G#"), ("Bb", "A#"), ("Cb", "B")]

def ENHARMONIC : List (String × String) := [("B#", "C"), ("E#", "F")]

def DEGREE_BASE_OFFSETS : List (Int × Int) :=
  [(1, 0), (2, 2), (3, 4), (4, 5), (5, 7), (6, 9), (7, 11)]

/-- Python `dict.get(k, d)` on a small string-keyed table. -/
def lookupD (m : List (String × String)) (k d : String) : String :=
  match m.find? (fun p => p.1 == k) with
  | some p => p.2
  | none => d

/-- Lookup of DEGREE_BASE_OFFSETS at k; the callers only ever pass keys 1..7,
so the default 0 is unreachable. -/
def degreeBaseOffset (k : Int) : Int :=
  match DEGREE_BASE_OFFSETS.find? (fun p => p.1 == k) with
  | some p => p.2
  | none => 0

/-- The full SCALE_MODES table from scales.py. -/
def SCALE_MODES : List (String × List Nat) :=
  [("ionian_major", [2, 2, 1, 2, 2, 2, 1]),
   ("dorian", [2, 1, 2, 2, 2, 1, 2]),
   ("phrygian", [1, 2, 2, 2, 1, 2, 2]),
   ("lydian", [2, 2, 2, 1, 2, 2, 1]),
   ("mixolydian", [2, 2, 1, 2, 2, 1, 2]),
   ("aeolian_natural_minor", [2, 1, 2, 2, 1, 2, 2]),
   ("locrian", [1, 2, 2, 1, 2, 2, 2]),
   ("harmonic_minor", [2, 1, 2, 2, 1, 3, 1]),
   ("melodic_minor", [2, 1, 2, 2, 2, 2, 1]),
   ("harmonic_minor_mode2_locrian_nat6", [1, 2, 1, 2, 2, 1, 3]),
   ("harmonic_minor_mode3_ionian_aug", [2, 1, 2, 2, 1, 3, 1]),
   ("harmonic_minor_mode4_dorian_4", [2, 2, 1, 2, 1, 3, 1]),
   ("harmonic_minor_mode5_phrygian_dom", [1, 3, 1, 2, 1, 2, 2]),
   ("harmonic_minor_mode6_lydian_2", [3, 1, 2, 1, 2, 2, 1]),
   ("harmonic_minor_mode7_superlocrian_bb7", [1, 2, 1, 2, 2, 1, 3]),
   ("dorian_b2", [1, 2, 2, 2, 2, 1, 2]),
   ("lydian_aug", [2, 2, 2, 2, 1, 2, 1]),
   ("lydian_dom", [2, 2, 2, 1, 2, 1, 2]),
   ("mixolydian_b6", [2, 2, 1, 2, 1, 2, 2]),
   ("locrian_nat2", [2, 1, 2, 1, 2, 2, 2]),
   ("altered_superlocrian", [1, 2, 1, 2, 2, 2, 2]),
   ("pentatonic_major", [2, 2, 3, 2, 3]),
   ("pentatonic_minor", [3, 2, 2, 3, 2]),
   ("egyptian_pentatonic", [2, 3, 2, 3, 2]),
   ("hirajoshi", [2, 1, 4, 1, 4]),
   ("iwato", [1, 4, 1, 4, 2]),
   ("kumoi", [2, 1, 4, 2, 3]),
   ("insen", [1, 4, 2, 3, 2]),
   ("yo", [2, 3, 2, 2, 3]),
   ("blues", [3, 2, 1, 1, 3, 2]),
   ("whole_tone", [2, 2, 2, 2, 2, 2]),
   ("augmented_hexatonic", [3, 1, 3, 1, 3, 1]),
   ("prometheus", [2, 2, 2, 3, 1, 2]),
   ("tritone_scale", [1, 2, 1, 2, 1, 2, 3]),
   ("diminished_hw", [1, 2, 1, 2, 1, 2, 1, 2]),
   ("diminished_wh", [2, 1, 2, 1, 2, 1, 2, 1]),
   ("hungarian_minor", [2, 1, 3, 1, 1, 3, 1]),
   ("double_harmonic_major", [1, 3, 1, 2, 1, 3, 1]),
   ("neapolitan_minor", [1, 2, 2, 2, 1, 3, 1]),
   ("neapolitan_major", [1, 2, 2, 2, 2, 2, 1]),
   ("enigmatic", [1, 3, 2, 2, 2, 1, 1]),
   ("persian", [1, 3, 1, 1, 2, 3, 1]),
   ("romanian_minor", [2, 1, 3, 1, 2, 1, 2]),
   ("ukrainian_dorian", [2, 1, 3, 1, 2, 1, 2]),
   ("spanish_gypsy", [1, 3, 1, 2, 1, 2, 2]),
   ("chromatic", [1, 1, 1, 1, 1, 1, 1, 1, 1, 1, 1, 1])]

/-! ## Python string helpers -/

/-- Python `str.isspace` restricted to the ASCII whitespace characters
(space, tab, newline, carriage return, vertical tab, form feed). -/
def pyIsSpace (c : Char) : Bool :=
  [' ', '\t', '\n', '\r', '\x0b', '\x0c'].contains c

/-- Python `str.strip()`. -/
def pyStrip (l : List Char) : List Char :=
  ((l.dropWhile pyIsSpace).reverse.dropWhile pyIsSpace).reverse

/-- The cleanup `note.strip().upper().replace(" ", "")` from normalize_note. -/
def pyClean (note : String) : List Char :=
  ((pyStrip note.data).map Char.toUpper).filter (fun c => c != ' ')

/-! ## Errors (the distinct ValueError messages raised by fretboard_core.py) -/

inductive FbError where
  | emptyNote : FbError
  | unsupportedNote (note : String) : FbError
  | emptyDegreeToken : FbError
  | invalidDegreeToken (token : String) : FbError
  | noDegreeTokens : FbError
  | unsupportedMode (mode : String) : FbError
  deriving DecidableEq, Repr

/-! ## normalize_note (fretboard_core.py lines 20–42) -/

/-- Lines 25–31: keep the letter plus a canonicalized second character when it
is `#` or `B`; otherwise keep the letter only. -/
def applyAccidental : List Char → List Char
  | [] => []
  | [c] => [c]
  | c :: d :: _ => if d == '#' then [c, '#'] else if d == 'B' then [c, 'b'] else [c]

/-- Lines 33–36: send flat spellings through FLAT_TO_SHARP and B#/E# through
ENHARMONIC, producing the candidate sharp spelling. -/
def canonSharp (n : List Char) : String :=
  let s1 := String.mk (applyAccidental n)
  let s2 := lookupD FLAT_TO_SHARP s1 s1
  lookupD ENHARMONIC s2 s2

/-- normalize_note on an already-cleaned character list; `orig` is the raw
argument used in the error message. -/
def normalizeCore (orig : String) (n : List Char) (use_flats : Bool) : Except FbError String :=
  if n.isEmpty then .error .emptyNote
  else if canonSharp n ∈ CHROMATIC_SHARPS then
    .ok (if use_flats then lookupD SHARP_TO_FLAT (canonSharp n) (canonSharp n) else canonSharp n)
  else .error (.unsupportedNote orig)

def normalize_note (note : String) (use_flats : Bool) : Except FbError String :=
  normalizeCore note (pyClean note) use_flats

/-! ## Token splitting (`text.replace(",", " ").split()` with the
whitespace-only filter) -/

def splitWsAux : List Char → List Char → List (List Char)
  | [], acc => if acc.isEmpty then [] else [acc.reverse]
  | c :: cs, acc =>
    if pyIsSpace c then
      if acc.isEmpty then splitWsAux cs [] else acc.reverse :: splitWsAux cs []
    else splitWsAux cs (c :: acc)

def splitTokens (text : String) : List String :=
  ((splitWsAux (text.data.map (fun c => if c == ',' then ' ' else c)) []).map String.mk).filter
    (fun x => !(pyStrip x.data).isEmpty)

/-- A Python list comprehension whose body may raise: the first error aborts. -/
def mapExcept {α β : Type} (f : α → Except FbError β) : List α → Except FbError (List β)
  | [] => .ok []
  | a :: as =>
    match f a with
    | .error e => .error e
    | .ok b =>
      match mapExcept f as with
      | .error e => .error e
      | .ok bs => .ok (b :: bs)

/-- parse_notes_text (fretboard_core.py lines 45–47). -/
def parse_notes_text (text : String) (use_flats : Bool) : Except FbError (List String) :=
  mapExcept (fun x => normalize_note x use_flats) (splitTokens text)

/-! ## unique_preserve_order (lines 50–58) -/

def unique_preserve_order_aux : List String → List String → List String
  | [], _ => []
  | x :: xs, seen =>
    if x ∈ seen then unique_preserve_order_aux xs seen
    else x :: unique_preserve_order_aux xs (x :: seen)

def unique_preserve_order (items : List String) : List String :=
  unique_preserve_order_aux items []

/-! ## parse_degree_token (lines 61–111) -/

def isAccChar (c : Char) : Bool := c == 'b' || c == '#' || c == 'x'

/-- Python `str.isdigit` on the ASCII decimal digits. -/
def pyIsDigit (c : Char) : Bool :=
  c == '0' || c == '1' || c == '2' || c == '3' || c == '4' || c == '5' || c == '6' ||
    c == '7' || c == '8' || c == '9'

def accShift (c : Char) : Int :=
  if c == 'b' then -1 else if c == '#' then 1 else if c == 'x' then 2 else 0

def shiftOf (cs : List Char) : Int := cs.foldl (fun a c => a + accShift c) 0

/-- Python `int` on a nonempty decimal digit string. -/
def natOfDigits (cs : List Char) : Nat := cs.foldl (fun a c => a * 10 + (c.toNat - '0'.toNat)) 0

/-- Line 66: `t.replace("♭", "b").replace("♯", "#")`. -/
def uniRepl (c : Char) : Char := if c == '♭' then 'b' else if c == '♯' then '#' else c

/-- The stripped, unicode-replaced token the scanner works on. -/
def cleanTok (token : String) : List Char := (pyStrip token.data).map uniRepl

/-- The scanner's acceptance condition (lines 74–97): after the leading
accidental run there is at least one digit, and after the digit run and the
trailing accidental run nothing remains. -/
def scanOk (t : List Char) : Bool :=
  !((t.dropWhile isAccChar).takeWhile pyIsDigit).isEmpty &&
    (((t.dropWhile isAccChar).dropWhile pyIsDigit).dropWhile isAccChar).isEmpty

def parse_degree_token (token : String) : Except FbError (Nat × Int) :=
  if (pyStrip token.data).isEmpty then .error .emptyDegreeToken
  else if (cleanTok token).map Char.toLower = "r".data ∨
      (cleanTok token).map Char.toLower = "root".data then .ok (1, 0)
  else if scanOk (cleanTok token) then
    .ok (natOfDigits (((cleanTok token).dropWhile isAccChar).takeWhile pyIsDigit),
      shiftOf ((cleanTok token).takeWhile isAccChar ++
        (((cleanTok token).dropWhile isAccChar).dropWhile pyIsDigit).takeWhile isAccChar))
  else .error (.invalidDegreeToken token)

/-! ## degrees_to_notes_text (lines 114–133) -/

/-- The loop body of lines 126–131 for a single token. -/
def degreeNoteOfToken (chromatic : List String) (root_idx : Nat) (tok : String) :
    Except FbError String :=
  match parse_degree_token tok with
  | .error e => .error e
  | .ok ds =>
    .ok (chromatic.getD
      ((((root_idx : Int) +
          (degreeBaseOffset (((ds.1 : Int) - 1) % 7 + 1) + ds.2) % 12) % 12).toNat) "")

def degrees_to_notes_text (text root : String) (use_flats : Bool) : Except FbError (List String) :=
  if (splitTokens text).isEmpty then .error .noDegreeTokens
  else
    match normalize_note root use_flats with
    | .error e => .error e
    | .ok root_n =>
      match mapExcept
          (degreeNoteOfToken (if use_flats then CHROMATIC_FLATS else CHROMATIC_SHARPS)
            ((if use_flats then CHROMATIC_FLATS else CHROMATIC_SHARPS).indexOf root_n))
          (splitTokens text) with
      | .error e => .error e
      | .ok notes => .ok (unique_preserve_order notes)

/-! ## generate_scale (lines 136–156) -/

def lookupSteps (table : List (String × List Nat)) (mode : String) : Option (List Nat) :=
  match table.find? (fun p => p.1 == mode) with
  | some p => some p.2
  | none => none

/-- The loop of lines 145–148: walk the steps, reducing the running index
modulo 12 and emitting the sharp-spelled note at each stop. -/
def scaleWalk (idx : Nat) : List Nat → List String
  | [] => []
  | step :: rest =>
    CHROMATIC_SHARPS.getD ((idx + step) % 12) "" :: scaleWalk ((idx + step) % 12) rest

def generate_scale (root mode : String) (scale_modes : List (String × List Nat))
    (use_flats : Bool) : Except FbError (List String) :=
  match lookupSteps scale_modes mode with
  | none => .error (.unsupportedMode mode)
  | some steps =>
    match normalize_note root false with
    | .error e => .error e
    | .ok root_n =>
      .ok (unique_preserve_order
        ((fun ns => if use_flats then ns.map (fun n => lookupD SHARP_TO_FLAT n n) else ns)
          (if steps.length ∈ ([5, 6, 7, 8, 12] : List Nat)
           then (root_n :: scaleWalk (CHROMATIC_SHARPS.indexOf root_n) steps).dropLast
           else root_n :: scaleWalk (CHROMATIC_SHARPS.indexOf root_n) steps)))

/-! ## fret_positions_equal_temperament (lines 159–163), over the reals -/

noncomputable def fret_positions_equal_temperament (num_frets : Nat) (scale_length : ℝ) :
    List ℝ :=
  (List.range (num_frets + 1)).map fun f : Nat =>
    if f = 0 then 0 else scale_length * (1 - (2 : ℝ) ^ (-(f : ℝ) / 12))

/-! ## Spec-side definitions used to state refinement claims -/

/-- Spec 4.3 formula for a degree's absolute pitch class:
`(rootIndex + wrappedMajorOffset(degree) + shift) mod 12` wrapped into [0,12). -/
def specAbsPitch (root_idx : Nat) (deg : Nat) (shift : Int) : Nat :=
  (((root_idx : Int) + degreeBaseOffset (((deg : Int) - 1) % 7 + 1) + shift) % 12).toNat

/-- Spec 4.4 description of the raw tone sequence: the root followed by, for
each step, the note at the root index advanced by the sum of the steps so far. -/
def specScaleTones (root_n : String) (steps : List Nat) : List String :=
  root_n :: (List.range steps.length).map fun i =>
    CHROMATIC_SHARPS.getD ((CHROMATIC_SHARPS.indexOf root_n + (steps.take (i + 1)).sum) % 12) ""

/-- Spec 4.2 grammar: an accidental run, then one or more digits, then an
accidental run, and nothing else. -/
def degreeGrammar (t : List Char) : Prop :=
  ∃ a d b : List Char, t = a ++ d ++ b ∧ (∀ c ∈ a, isAccChar c = true) ∧ d ≠ [] ∧
    (∀ c ∈ d, pyIsDigit c = true) ∧ (∀ c ∈ b, isAccChar c = true)

/-! ## Helper lemmas -/
-- helper lemmas batch 1

theorem mapExcept_ok_iff {α β : Type} (f : α → Except FbError β) :
    ∀ (l : List α) (out : List β),
      mapExcept f l = .ok out ↔ List.Forall₂ (fun a b => f a = .ok b) l out := by
  intro l
  induction l with
  | nil =>
    intro out
    constructor
    · intro h
      cases h
      exact List.Forall₂.nil
    · intro h
      cases h
      rfl
  | cons a as ih =>
    intro out
    constructor
    · intro h
      simp only [mapExcept] at h
      cases hfa : f a with
      | error e => rw [hfa] at h; cases h
      | ok b =>
        rw [hfa] at h
        cases hrest : mapExcept f as with
        | error e => rw [hrest] at h; cases h
        | ok bs =>
          rw [hrest] at h
          cases h
          exact List.Forall₂.cons hfa ((ih bs).mp hrest)
    · intro h
      cases h with
      | cons hab htail =>
        simp only [mapExcept]
        rw [hab, (ih _).mpr htail]

theorem normalize_ok_mem (s : String) (flats : Bool) (out : String)
    (h : normalize_note s flats = .ok out) :
    out ∈ (if flats then CHROMATIC_FLATS else CHROMATIC_SHARPS) := by
  unfold normalize_note normalizeCore at h
  by_cases h1 : (pyClean s).isEmpty
  · rw [if_pos h1] at h; cases h
  · rw [if_neg h1] at h
    by_cases h2 : canonSharp (pyClean s) ∈ CHROMATIC_SHARPS
    · rw [if_pos h2] at h
      cases h
      cases flats with
      | false => simpa using h2
      | true =>
        have hall : ∀ x ∈ CHROMATIC_SHARPS, lookupD SHARP_TO_FLAT x x ∈ CHROMATIC_FLATS := by
          decide
        simpa using hall _ h2
    · rw [if_neg h2] at h; cases h

theorem splitWsAux_all_space (l : List Char) (h : ∀ c ∈ l, pyIsSpace c = true) :
    splitWsAux l [] = [] := by
  induction l with
  | nil => rfl
  | cons c cs ih =>
    have hc : pyIsSpace c = true := h c (List.mem_cons_self c cs)
    simp only [splitWsAux, hc, if_true, List.isEmpty_nil]
    exact ih fun d hd => h d (List.mem_cons_of_mem c hd)

theorem splitTokens_all_space (text : String)
    (h : ∀ c ∈ text.data, pyIsSpace c = true ∨ c = ',') :
    splitTokens text = [] := by
  unfold splitTokens
  have hz : splitWsAux (text.data.map (fun c => if c == ',' then ' ' else c)) [] = [] := by
    apply splitWsAux_all_space
    intro c hc
    rcases List.mem_map.mp hc with ⟨d, hd, rfl⟩
    rcases h d hd with h1 | h1
    · by_cases hcomma : d == ','
      · simp [hcomma]; decide
      · simp only [hcomma, if_false]; exact h1
    · subst h1; decide
  rw [hz]
  rfl
-- C4 and C5

theorem absPitch_align (ri : Nat) (deg : Nat) (shift : Int) :
    ((((ri : Int) + (degreeBaseOffset (((deg : Int) - 1) % 7 + 1) + shift) % 12) % 12).toNat) =
      specAbsPitch ri deg shift := by
  unfold specAbsPitch
  generalize degreeBaseOffset (((deg : Int) - 1) % 7 + 1) = B
  omega

theorem degrees_mapExcept_eq (chromatic : List String) (ri : Nat) :
    ∀ (toks : List String) (pairs : List (Nat × Int)),
      List.Forall₂ (fun t p => parse_degree_token t = .ok p) toks pairs →
      mapExcept (degreeNoteOfToken chromatic ri) toks =
        .ok (pairs.map fun p => chromatic.getD (specAbsPitch ri p.1 p.2) "") := by
  intro toks pairs h
  induction h with
  | nil => rfl
  | cons hab htail ih =>
    rename_i a p as ps
    simp only [mapExcept, degreeNoteOfToken, hab, ih, List.map_cons, absPitch_align]

/-- C4 (confirmed): for a valid root and a nonempty token list in which every
token parses, degrees_to_notes_text returns, deduplicated preserving
first-occurrence order, the notes at the spec's absolute pitch classes
`(rootIndex + wrappedMajorOffset + shift) mod 12`; an empty token list fails
with the empty-input error. -/
theorem claim_C4 :
    (∀ (text root : String) (flats : Bool) (root_n : String) (pairs : List (Nat × Int)),
        normalize_note root flats = .ok root_n →
        List.Forall₂ (fun t p => parse_degree_token t = .ok p) (splitTokens text) pairs →
        pairs ≠ [] →
        degrees_to_notes_text text root flats =
          .ok (unique_preserve_order (pairs.map fun p =>
            (if flats then CHROMATIC_FLATS else CHROMATIC_SHARPS).getD
              (specAbsPitch
                ((if flats then CHROMATIC_FLATS else CHROMATIC_SHARPS).indexOf root_n)
                p.1 p.2) ""))) ∧
      ∀ (text root : String) (flats : Bool),
        splitTokens text = [] →
        degrees_to_notes_text text root flats = .error .noDegreeTokens := by
  constructor
  · intro text root flats root_n pairs hroot hpairs hne
    have htoks : ¬(splitTokens text).isEmpty = true := by
      intro h0
      rw [List.isEmpty_iff.mp h0] at hpairs
      cases hpairs
      exact hne rfl
    unfold degrees_to_notes_text
    rw [if_neg htoks]
    split
    · next e heq => rw [hroot] at heq; cases heq
    · next x heq =>
      rw [hroot] at heq
      injection heq with hx
      subst hx
      split
      · next e heq2 =>
        rw [degrees_mapExcept_eq _ _ _ _ hpairs] at heq2
        cases heq2
      · next notes heq2 =>
        rw [degrees_mapExcept_eq _ _ _ _ hpairs] at heq2
        injection heq2 with hn
        subst hn
        rfl
  · intro text root flats h
    unfold degrees_to_notes_text
    rw [h]
    rfl

/-- C4 witness: the theorem applied at tokens "1 b3 5" over root C with sharp
spelling gives the claim's example ["C","D#","G"]. -/
theorem claim_C4_witness :
    degrees_to_notes_text "1 b3 5" "C" false = .ok ["C", "D#", "G"] := by
  have h := claim_C4.1 "1 b3 5" "C" false "C" [(1, 0), (3, -1), (5, 0)] (by decide)
    (by
      have hs : splitTokens "1 b3 5" = ["1", "b3", "5"] := by decide
      rw [hs]
      exact .cons (by decide) (.cons (by decide) (.cons (by decide) .nil)))
    (by decide)
  rw [h]
  decide

theorem scaleWalk_eq (steps : List Nat) :
    ∀ idx : Nat, scaleWalk idx steps =
      (List.range steps.length).map fun i =>
        CHROMATIC_SHARPS.getD ((idx + (steps.take (i + 1)).sum) % 12) "" := by
  induction steps with
  | nil => intro idx; rfl
  | cons s rest ih =>
    intro idx
    simp only [scaleWalk]
    rw [ih ((idx + s) % 12), List.length_cons, List.range_succ_eq_map, List.map_cons,
      List.map_map]
    refine List.cons_eq_cons.mpr ⟨?_, ?_⟩
    · simp
    · apply List.map_congr_left
      intro i hi
      simp only [Function.comp_apply]
      have ht : (s :: rest).take (i + 1 + 1) = s :: rest.take (i + 1) := rfl
      rw [ht, List.sum_cons]
      generalize (rest.take (i + 1)).sum = t
      congr 1
      omega

/-- C5 (confirmed): for a known scale and valid root, generate_scale drops the
final tone of the spec's raw tone walk exactly when the step count is 5, 6, 7,
8 or 12, keeps all tones otherwise, applies the flat respelling, and
deduplicates preserving order. -/
theorem claim_C5 (table : List (String × List Nat)) (mode root : String) (flats : Bool)
    (steps : List Nat) (root_n : String)
    (hmode : lookupSteps table mode = some steps)
    (hroot : normalize_note root false = .ok root_n) :
    generate_scale root mode table flats =
      .ok (unique_preserve_order
        ((fun ns => if flats then ns.map (fun n => lookupD SHARP_TO_FLAT n n) else ns)
          (if steps.length ∈ ([5, 6, 7, 8, 12] : List Nat)
           then (specScaleTones root_n steps).dropLast
           else specScaleTones root_n steps))) := by
  unfold generate_scale
  rw [hmode]
  split
  · next heq => cases heq
  · next x heq =>
    injection heq with hx
    subst hx
    split
    · next e heq2 => rw [hroot] at heq2; cases heq2
    · next y heq2 =>
      rw [hroot] at heq2
      injection heq2 with hy
      subst hy
      have hw : specScaleTones root_n steps =
          root_n :: scaleWalk (CHROMATIC_SHARPS.indexOf root_n) steps := by
        unfold specScaleTones
        rw [scaleWalk_eq]
      rw [hw]

/-- C5 witness: the theorem applied at root C and pentatonic_major yields the
claim's example ["C","D","E","G","A"]. -/
theorem claim_C5_witness :
    generate_scale "C" "pentatonic_major" SCALE_MODES false =
      .ok ["C", "D", "E", "G", "A"] := by
  have h := claim_C5 SCALE_MODES "pentatonic_major" "C" false [2, 2, 3, 2, 3] "C"
    (by decide) (by decide)
  rw [h]
  decide
-- C8

theorem fret_positions_getD (n : Nat) (L : ℝ) (f : Nat) (hf : f < n + 1) :
    (fret_positions_equal_temperament n L).getD f 0 =
      if f = 0 then 0 else L * (1 - (2 : ℝ) ^ (-(f : ℝ) / 12)) := by
  unfold fret_positions_equal_temperament
  rw [List.getD_eq_getElem?_getD, List.getElem?_map, List.getElem?_range hf]
  rfl

/-- C8 (confirmed, modelling float arithmetic by exact real arithmetic): the
fret-position list has length fretCount+1, its entry 0 is exactly 0, its entry
at fret f in [1, fretCount] is scaleLength * (1 - 2^(-f/12)), and at 12 frets
with scale length 650 the octave fret sits exactly at 325. -/
theorem claim_C8 :
    (∀ (n : Nat) (L : ℝ), 1 ≤ n →
        (fret_positions_equal_temperament n L).length = n + 1 ∧
          (fret_positions_equal_temperament n L).getD 0 0 = 0 ∧
          ∀ f : Nat, 1 ≤ f → f ≤ n →
            (fret_positions_equal_temperament n L).getD f 0 =
              L * (1 - (2 : ℝ) ^ (-(f : ℝ) / 12))) ∧
      (fret_positions_equal_temperament 12 650).getD 12 0 = 325 := by
  constructor
  · intro n L hn
    refine ⟨?_, ?_, ?_⟩
    · unfold fret_positions_equal_temperament
      rw [List.length_map, List.length_range]
    · rw [fret_positions_getD n L 0 (Nat.succ_pos n)]
      rfl
    · intro f h1 h2
      rw [fret_positions_getD n L f (by omega)]
      rw [if_neg (by omega)]
  · rw [fret_positions_getD 12 650 12 (by norm_num)]
    rw [if_neg (by norm_num)]
    have h12 : -((12 : Nat) : ℝ) / 12 = ((-1 : Int) : ℝ) := by norm_num
    rw [h12, Real.rpow_intCast]
    norm_num

/-- C8 witness: the universal part applied at 12 frets and scale length 650. -/
theorem claim_C8_witness :
    (fret_positions_equal_temperament 12 650).length = 13 ∧
      (fret_positions_equal_temperament 12 650).getD 0 0 = 0 :=
  ⟨(claim_C8.1 12 650 (by norm_num)).1, (claim_C8.1 12 650 (by norm_num)).2.1⟩
-- C6 helper lemmas and claim

theorem isAcc_cases (c : Char) (h : isAccChar c = true) : c = 'b' ∨ c = '#' ∨ c = 'x' := by
  simp only [isAccChar, Bool.or_eq_true, beq_iff_eq] at h
  tauto

theorem isDigit_cases (c : Char) (h : pyIsDigit c = true) :
    c = '0' ∨ c = '1' ∨ c = '2' ∨ c = '3' ∨ c = '4' ∨ c = '5' ∨ c = '6' ∨ c = '7' ∨
      c = '8' ∨ c = '9' := by
  simp only [pyIsDigit, Bool.or_eq_true, beq_iff_eq] at h
  tauto

theorem isAcc_props (c : Char) (h : isAccChar c = true) :
    pyIsSpace c = false ∧ uniRepl c = c ∧ pyIsDigit c = false := by
  rcases isAcc_cases c h with rfl | rfl | rfl <;> exact ⟨by decide, by decide, by decide⟩

theorem isDigit_props (c : Char) (h : pyIsDigit c = true) :
    pyIsSpace c = false ∧ uniRepl c = c ∧ isAccChar c = false ∧ Char.toLower c = c := by
  rcases isDigit_cases c h with rfl | rfl | rfl | rfl | rfl | rfl | rfl | rfl | rfl | rfl <;>
    exact ⟨by decide, by decide, by decide, by decide⟩

theorem takeWhile_append_of (p : Char → Bool) :
    ∀ (l r : List Char), (∀ c ∈ l, p c = true) →
      (∀ c cs, r = c :: cs → p c = false) →
      (l ++ r).takeWhile p = l ∧ (l ++ r).dropWhile p = r := by
  intro l
  induction l with
  | nil =>
    intro r _ hr
    cases r with
    | nil => exact ⟨rfl, rfl⟩
    | cons c cs =>
      have hc := hr c cs rfl
      constructor
      · simp [List.takeWhile_cons, hc]
      · simp [List.dropWhile_cons, hc]
  | cons a l ih =>
    intro r hl hr
    have ha : p a = true := hl a (List.mem_cons_self a l)
    have hrec := ih r (fun c hc => hl c (List.mem_cons_of_mem a hc)) hr
    constructor
    · simp [List.takeWhile_cons, ha, hrec.1]
    · simp [List.dropWhile_cons, ha, hrec.2]

theorem takeWhile_all (p : Char → Bool) :
    ∀ l : List Char, (∀ c ∈ l, p c = true) →
      l.takeWhile p = l ∧ l.dropWhile p = [] := by
  intro l
  induction l with
  | nil => intro; exact ⟨rfl, rfl⟩
  | cons a as ih =>
    intro h
    have ha : p a = true := h a (List.mem_cons_self a as)
    have hrec := ih fun c hc => h c (List.mem_cons_of_mem a hc)
    constructor
    · simp [List.takeWhile_cons, ha, hrec.1]
    · simp [List.dropWhile_cons, ha, hrec.2]

theorem dropWhile_all_false (p : Char → Bool) :
    ∀ l : List Char, (∀ c ∈ l, p c = false) → l.dropWhile p = l := by
  intro l
  induction l with
  | nil => intro; rfl
  | cons a as _ =>
    intro h
    simp [List.dropWhile_cons, h a (List.mem_cons_self a as)]

theorem pyStrip_id (l : List Char) (h : ∀ c ∈ l, pyIsSpace c = false) : pyStrip l = l := by
  unfold pyStrip
  rw [dropWhile_all_false _ _ h]
  rw [dropWhile_all_false _ _ (fun c hc => h c (List.mem_reverse.mp hc))]
  exact List.reverse_reverse l

theorem map_id_of (f : Char → Char) :
    ∀ l : List Char, (∀ c ∈ l, f c = c) → l.map f = l := by
  intro l
  induction l with
  | nil => intro; rfl
  | cons a as ih =>
    intro h
    simp only [List.map_cons, h a (List.mem_cons_self a as),
      ih fun c hc => h c (List.mem_cons_of_mem a hc)]

theorem all_of_dropWhile_isEmpty (p : Char → Bool) :
    ∀ l : List Char, (l.dropWhile p).isEmpty = true → ∀ c ∈ l, p c = true := by
  intro l
  induction l with
  | nil => intro _ c hc; cases hc
  | cons a as ih =>
    intro h c hc
    by_cases hpa : p a = true
    · rw [List.dropWhile_cons, if_pos hpa] at h
      rcases List.mem_cons.mp hc with rfl | hc2
      · exact hpa
      · exact ih h c hc2
    · rw [List.dropWhile_cons, if_neg hpa] at h
      simp at h

theorem grammar_scan (a d b : List Char) (ha : ∀ c ∈ a, isAccChar c = true) (hd : d ≠ [])
    (hdall : ∀ c ∈ d, pyIsDigit c = true) (hb : ∀ c ∈ b, isAccChar c = true) :
    (a ++ (d ++ b)).takeWhile isAccChar = a ∧
      (a ++ (d ++ b)).dropWhile isAccChar = d ++ b ∧
      (d ++ b).takeWhile pyIsDigit = d ∧
      (d ++ b).dropWhile pyIsDigit = b ∧
      b.takeWhile isAccChar = b ∧
      b.dropWhile isAccChar = [] := by
  have h1 := takeWhile_append_of isAccChar a (d ++ b) ha (by
    intro c cs heq
    cases d with
    | nil => exact absurd rfl hd
    | cons c0 d' =>
      have : c0 = c := by
        have := congrArg (fun l => l.headD ' ') heq
        simpa using this
      subst this
      exact (isDigit_props c0 (hdall c0 (List.mem_cons_self c0 d'))).2.2.1)
  have h2 := takeWhile_append_of pyIsDigit d b hdall (by
    intro c cs heq
    subst heq
    exact (isAcc_props c (hb c (List.mem_cons_self c cs))).2.2)
  have h3 := takeWhile_all isAccChar b hb
  exact ⟨h1.1, h1.2, h2.1, h2.2, h3.1, h3.2⟩

theorem scanOk_of_grammar (t : List Char) (h : degreeGrammar t) : scanOk t = true := by
  obtain ⟨a, d, b, rfl, ha, hd, hdall, hb⟩ := h
  obtain ⟨e1, e2, e3, e4, e5, e6⟩ := grammar_scan a d b ha hd hdall hb
  unfold scanOk
  rw [List.append_assoc, e2, e3, e4, e6]
  cases d with
  | nil => exact absurd rfl hd
  | cons c0 d' => rfl

theorem grammar_of_scanOk (t : List Char) (h : scanOk t = true) : degreeGrammar t := by
  unfold scanOk at h
  rw [Bool.and_eq_true] at h
  obtain ⟨h1, h2⟩ := h
  refine ⟨t.takeWhile isAccChar, (t.dropWhile isAccChar).takeWhile pyIsDigit,
    (t.dropWhile isAccChar).dropWhile pyIsDigit, ?_, ?_, ?_, ?_, ?_⟩
  · rw [List.append_assoc, List.takeWhile_append_dropWhile, List.takeWhile_append_dropWhile]
  · intro c hc; exact List.mem_takeWhile_imp hc
  · intro h0; rw [h0] at h1; simp at h1
  · intro c hc; exact List.mem_takeWhile_imp hc
  · exact all_of_dropWhile_isEmpty _ _ h2

theorem digit_in_not_rroot (t : List Char) (c : Char) (hc : c ∈ t) (hdig : pyIsDigit c = true) :
    ¬(t.map Char.toLower = "r".data ∨ t.map Char.toLower = "root".data) := by
  intro h
  have hlc : Char.toLower c = c := (isDigit_props c hdig).2.2.2
  have hmem : Char.toLower c ∈ t.map Char.toLower := List.mem_map_of_mem Char.toLower hc
  rcases h with h | h
  · rw [h, hlc] at hmem
    have hr : c = 'r' := by simpa [show "r".data = ['r'] from rfl] using hmem
    subst hr
    exact absurd hdig (by decide)
  · rw [h, hlc] at hmem
    have hr : c = 'r' ∨ c = 'o' ∨ c = 'o' ∨ c = 't' := by
      simpa [show "root".data = ['r', 'o', 'o', 't'] from rfl] using hmem
    rcases hr with rfl | rfl | rfl | rfl <;> exact absurd hdig (by decide)

/-- C6 (amended): after stripping surrounding whitespace and mapping the
unicode flat/sharp signs to b/#, every token matching the grammar
[accidental run][digits][accidental run] yields the digit value and the
summed accidental shift of prefix and suffix together; a stripped token
spelling r or root case-insensitively yields (1, 0); every other token is
rejected with an error. -/
theorem claim_C6 :
    (∀ (a d b : List Char), (∀ c ∈ a, isAccChar c = true) → d ≠ [] →
        (∀ c ∈ d, pyIsDigit c = true) → (∀ c ∈ b, isAccChar c = true) →
        parse_degree_token (String.mk (a ++ (d ++ b))) =
          .ok (natOfDigits d, shiftOf (a ++ b))) ∧
      (∀ token : String,
          ((cleanTok token).map Char.toLower = "r".data ∨
            (cleanTok token).map Char.toLower = "root".data) →
          parse_degree_token token = .ok (1, 0)) ∧
      ∀ token : String,
        ¬((cleanTok token).map Char.toLower = "r".data ∨
          (cleanTok token).map Char.toLower = "root".data) →
        ¬ degreeGrammar (cleanTok token) →
        ∃ e, parse_degree_token token = .error e := by
  refine ⟨?_, ?_, ?_⟩
  · intro a d b ha hd hdall hb
    have hmem3 : ∀ c ∈ a ++ (d ++ b), c ∈ a ∨ c ∈ d ∨ c ∈ b := by
      intro c hc
      simpa using hc
    have hns : ∀ c ∈ a ++ (d ++ b), pyIsSpace c = false := by
      intro c hc
      rcases hmem3 c hc with h | h | h
      · exact (isAcc_props c (ha c h)).1
      · exact (isDigit_props c (hdall c h)).1
      · exact (isAcc_props c (hb c h)).1
    have hur : ∀ c ∈ a ++ (d ++ b), uniRepl c = c := by
      intro c hc
      rcases hmem3 c hc with h | h | h
      · exact (isAcc_props c (ha c h)).2.1
      · exact (isDigit_props c (hdall c h)).2.1
      · exact (isAcc_props c (hb c h)).2.1
    have hstrip : pyStrip (String.mk (a ++ (d ++ b))).data = a ++ (d ++ b) :=
      pyStrip_id _ hns
    have hclean : cleanTok (String.mk (a ++ (d ++ b))) = a ++ (d ++ b) := by
      unfold cleanTok
      rw [hstrip]
      exact map_id_of _ _ hur
    obtain ⟨e1, e2, e3, e4, e5, e6⟩ := grammar_scan a d b ha hd hdall hb
    have hc0 : ∃ c0 d', d = c0 :: d' := by
      cases d with
      | nil => exact absurd rfl hd
      | cons c0 d' => exact ⟨c0, d', rfl⟩
    obtain ⟨c0, d', rfl⟩ := hc0
    have htne : ¬(pyStrip (String.mk (a ++ (c0 :: d' ++ b))).data).isEmpty = true := by
      rw [hstrip]
      intro h0
      have := List.isEmpty_iff.mp h0
      simp at this
    have hrr := digit_in_not_rroot (a ++ (c0 :: d' ++ b)) c0
      (by simp) (hdall c0 (List.mem_cons_self c0 d'))
    have hscan : scanOk (a ++ (c0 :: d' ++ b)) = true := by
      unfold scanOk
      rw [e2, e3, e4, e6]
      rfl
    unfold parse_degree_token
    rw [if_neg htne, hclean, if_neg hrr, if_pos hscan, e2, e3, e4, e1, e5]
  · intro token h
    have hne : ¬(pyStrip token.data).isEmpty = true := by
      intro h0
      have h1 : cleanTok token = [] := by
        unfold cleanTok
        rw [List.isEmpty_iff.mp h0]
        rfl
      rw [h1] at h
      rcases h with h | h <;> simp only [List.map_nil] at h <;> exact absurd h (by decide)
    unfold parse_degree_token
    rw [if_neg hne, if_pos h]
  · intro token h1 h2
    unfold parse_degree_token
    by_cases h0 : (pyStrip token.data).isEmpty = true
    · rw [if_pos h0]
      exact ⟨.emptyDegreeToken, rfl⟩
    · rw [if_neg h0, if_neg h1]
      by_cases hs : scanOk (cleanTok token) = true
      · exact absurd (grammar_of_scanOk _ hs) h2
      · rw [if_neg hs]
        exact ⟨.invalidDegreeToken token, rfl⟩

/-- C6 counterexample: the token " 3 " matches neither the grammar nor the
r/root forms, yet parse_degree_token accepts it (whitespace is stripped),
contradicting "every other token is rejected". -/
theorem claim_C6_counterexample :
    ¬ degreeGrammar " 3 ".data ∧
      " 3 ".data.map Char.toLower ≠ "r".data ∧
      " 3 ".data.map Char.toLower ≠ "root".data ∧
      parse_degree_token " 3 " = .ok (3, 0) := by
  refine ⟨?_, by decide, by decide, by decide⟩
  intro hg
  exact absurd (scanOk_of_grammar _ hg) (by decide)

/-- C6 witness: the grammar case applied to the decomposition b · 4 · #. -/
theorem claim_C6_witness : parse_degree_token "b4#" = Except.ok (4, 0) := by
  have h := claim_C6.1 ['b'] ['4'] ['#'] (by decide) (by decide) (by decide) (by decide)
  have e1 : String.mk (['b'] ++ (['4'] ++ ['#'])) = "b4#" := by decide
  have e2 : natOfDigits ['4'] = 4 := by decide
  have e3 : shiftOf (['b'] ++ ['#']) = 0 := by decide
  rw [e1, e2, e3] at h
  exact h
-- claims C1, C2, C3, C7, C9, C10

/-- C1 (amended): parse_notes_text succeeds with output `out` exactly when the
tokens of the text normalize pointwise, in order, to `out` — one output entry
per token, so duplicates are kept, not deduplicated. -/
theorem claim_C1 (text : String) (flats : Bool) (out : List String) :
    parse_notes_text text flats = .ok out ↔
      List.Forall₂ (fun t v => normalize_note t flats = .ok v) (splitTokens text) out :=
  mapExcept_ok_iff _ (splitTokens text) out

/-- C1 counterexample: on the claim's own example the duplicate "C" is kept,
so the result is not the deduplicated ["C","E","G"]. -/
theorem claim_C1_counterexample :
    parse_notes_text "C E G C" false = .ok ["C", "E", "G", "C"] ∧
      parse_notes_text "C E G C" false ≠ .ok ["C", "E", "G"] := by
  constructor
  · decide
  · decide

/-- C1 witness: the iff applied at a concrete text. -/
theorem claim_C1_witness : parse_notes_text "C E" false = .ok ["C", "E"] := by
  apply (claim_C1 "C E" false ["C", "E"]).mpr
  have hs : splitTokens "C E" = ["C", "E"] := by decide
  rw [hs]
  exact .cons (by decide) (.cons (by decide) .nil)

/-- C2 counterexample: "C##", "Cbb" and "Cx" do not raise; the extra
characters are silently dropped. -/
theorem claim_C2_counterexample :
    normalize_note "C##" false = .ok "C#" ∧ normalize_note "Cbb" false = .ok "B" ∧
      normalize_note "Cx" false = .ok "C" := by
  exact ⟨by decide, by decide, by decide⟩

/-- C2 (amended): normalize_note never looks past the first two characters of
the cleaned input: its result on any string equals its result on the first
two cleaned characters, so trailing characters (a second accidental or
anything else) are ignored rather than an error. -/
theorem claim_C2 (s : String) (flats : Bool) :
    normalize_note s flats = normalizeCore s ((pyClean s).take 2) flats := by
  unfold normalize_note
  cases h : pyClean s with
  | nil => rfl
  | cons c rest =>
    cases rest with
    | nil => rfl
    | cons d rest2 => rfl

/-- C3 counterexample: "3b#" is accepted by parse_degree_token (degree 3,
shift 0), not rejected as the claim states. -/
theorem claim_C3_counterexample : parse_degree_token "3b#" = .ok (3, 0) := by decide

/-- C3 (amended): both the suffix-only token "3b#" and the prefix+suffix
token "b3#" are legal and yield degree 3 with shift 0. -/
theorem claim_C3 :
    parse_degree_token "3b#" = .ok (3, 0) ∧ parse_degree_token "b3#" = .ok (3, 0) := by
  exact ⟨by decide, by decide⟩

/-- C7 (confirmed): normalize_note is idempotent on successful outputs under a
fixed flats flag, and the enharmonic pair C#/Db normalizes identically, hence
to the same pitch-class index. -/
theorem claim_C7 :
    (∀ (s : String) (flats : Bool) (out : String),
        normalize_note s flats = .ok out → normalize_note out flats = .ok out) ∧
      ∀ flats : Bool, normalize_note "C#" flats = normalize_note "Db" flats := by
  constructor
  · intro s flats out h
    have hmem := normalize_ok_mem s flats out h
    cases flats with
    | false =>
      have hfix : ∀ x ∈ CHROMATIC_SHARPS, normalize_note x false = .ok x := by decide
      exact hfix out (by simpa using hmem)
    | true =>
      have hfix : ∀ x ∈ CHROMATIC_FLATS, normalize_note x true = .ok x := by decide
      exact hfix out (by simpa using hmem)
  · intro flats
    cases flats with
    | false => decide
    | true => decide

/-- C7 witness: idempotence applied at the concrete input "db". -/
theorem claim_C7_witness : normalize_note "C#" false = .ok "C#" :=
  claim_C7.1 "db" false "C#" (by decide)

/-- C9 (confirmed): a text of only whitespace and commas yields the empty note
list without error on the notes path, while the degrees path raises its
empty-input error on the same text. -/
theorem claim_C9 (text root : String) (flats : Bool)
    (h : ∀ c ∈ text.data, pyIsSpace c = true ∨ c = ',') :
    parse_notes_text text flats = .ok [] ∧
      degrees_to_notes_text text root flats = .error .noDegreeTokens := by
  have hs := splitTokens_all_space text h
  constructor
  · unfold parse_notes_text
    rw [hs]
    rfl
  · unfold degrees_to_notes_text
    rw [hs]
    rfl

/-- C9 witness: the theorem applied at the concrete text " ,, ". -/
theorem claim_C9_witness :
    parse_notes_text " ,, " false = .ok [] ∧
      degrees_to_notes_text " ,, " "C" false = .error .noDegreeTokens :=
  claim_C9 " ,, " "C" false (by decide)

/-- C10 (confirmed): the degree token "0" parses to (0, 0), and the degrees
path wraps degree 0 to the major-seventh offset, so "0" over root C resolves
to B. -/
theorem claim_C10 :
    parse_degree_token "0" = .ok (0, 0) ∧
      degrees_to_notes_text "0" "C" false = .ok ["B"] := by
  exact ⟨by decide, by decide⟩
